import Mathlib

/-!
Verification development for the JSON2plaintext converter
(`src/JSON2plaintext.py`).  The Python functions `extract_content`,
`clean_content` and `format_dialogue` are embedded as executable Lean
definitions over a `Json` value type; places where the Python code can
raise are modelled with `Except String`.
-/

set_option maxHeartbeats 1000000

deriving instance DecidableEq for Except

/-- JSON values as parsed by `json.load`.  Numbers are modelled as integers
(all numeric fields exercised by the program — `currentlySelected`,
`timestamp` — are integral); Python `True`/`False` are kept as a separate
constructor because Python treats them as the integers 1/0 where an index
or a timestamp is expected.  Objects are association lists in insertion
order; `json.load` produces distinct keys. -/
inductive Json where
  | null : Json
  | bool (b : Bool) : Json
  | num (n : Int) : Json
  | str (s : String) : Json
  | arr (elems : List Json) : Json
  | obj (fields : List (String × Json)) : Json
deriving Repr

/-- Dictionary lookup: `item[key]` / `item.get(key)` on a parsed-JSON dict. -/
def lookupField : List (String × Json) → String → Option Json
  | [], _ => none
  | (k, v) :: rest, key => if k = key then some v else lookupField rest key

theorem lookupField_sizeOf {fields : List (String × Json)} {key : String}
    {v : Json} (h : lookupField fields key = some v) : sizeOf v < sizeOf fields := by
  induction fields with
  | nil => simp [lookupField] at h
  | cons p rest ih =>
    obtain ⟨k, w⟩ := p
    by_cases hk : k = key
    · simp [lookupField, hk] at h
      subst h
      simp [Prod.mk.sizeOf_spec]
      omega
    · simp [lookupField, hk] at h
      have := ih h
      simp [Prod.mk.sizeOf_spec]
      omega

theorem json_sizeOf_pos (j : Json) : 0 < sizeOf j := by
  cases j <;> simp

theorem jsonList_sizeOf_pos (l : List Json) : 0 < sizeOf l := by
  cases l <;> simp

/-- The test `step.get('type') == 'contentBlock'` on a step dict. -/
def isContentBlockStep (o : Option Json) : Bool :=
  match o with
  | some (.str s) => s = "contentBlock"
  | _ => false

mutual

/-- Embedding of `extract_content` (src lines 32-58).  The Python function
recursively extracts text: dicts are inspected for the keys `text`,
`content`, `steps`, `messages`, `data` in that order; lists are extracted
element-wise with a `'\n'` appended after each element; strings are returned
unchanged; every other scalar yields `''`.  The `steps` branch iterates
`item['steps']` and calls `step.get(...)` on each element, which raises in
Python when the `steps` value is not iterable or an element is not a dict;
those raises are modelled as `Except.error`.  Iterating a non-empty string
or dict under `steps` yields a non-dict element (a character / a key) and
raises on the first `step.get`, while the empty string / empty dict iterate
zero times and return `''`. -/
def extract_content : Json → Except String String
  | .obj fields =>
    match h1 : lookupField fields "text" with
    | some v => extract_content v
    | none =>
      match h2 : lookupField fields "content" with
      | some v => extract_content v
      | none =>
        match h3 : lookupField fields "steps" with
        | some s => stepsBranch s
        | none =>
          match h4 : lookupField fields "messages" with
          | some v => extract_content v
          | none =>
            match h5 : lookupField fields "data" with
            | some v => extract_content v
            | none => .ok ""
  | .arr elems => extractList elems
  | .str s => .ok s
  | .num _ => .ok ""
  | .bool _ => .ok ""
  | .null => .ok ""
termination_by j => sizeOf j
decreasing_by
  all_goals simp
  all_goals first
    | omega
    | (have hlf := lookupField_sizeOf h1; omega)
    | (have hlf := lookupField_sizeOf h2; omega)
    | (have hlf := lookupField_sizeOf h3; omega)
    | (have hlf := lookupField_sizeOf h4; omega)
    | (have hlf := lookupField_sizeOf h5; omega)

/-- Dispatch on the shape of the `steps` value (the body of
`for step in item.get('steps', []): ...`): a list is iterated; iterating a
non-empty string or non-empty dict hits a non-dict element and raises at
`step.get`; the empty string and the empty dict iterate zero times; every
other value raises `TypeError` at the `for` itself. -/
def stepsBranch : Json → Except String String
  | .arr steps => extractSteps steps
  | .str s => if s = "" then .ok "" else .error "AttributeError: str element has no attribute get"
  | .obj [] => .ok ""
  | .obj (_ :: _) => .error "AttributeError: str key has no attribute get"
  | _ => .error "TypeError: steps value is not iterable"
termination_by s => sizeOf s
decreasing_by
  all_goals simp

/-- The list branch of `extract_content`: `content += extract_content(elem) + '\n'`. -/
def extractList : List Json → Except String String
  | [] => .ok ""
  | e :: rest => do
    let s ← extract_content e
    let r ← extractList rest
    .ok (s ++ "\n" ++ r)
termination_by l => sizeOf l
decreasing_by
  all_goals simp
  all_goals omega

/-- The `steps` branch of `extract_content`: only steps whose `type` equals
`"contentBlock"` contribute, via their `content` field (default `[]`);
non-dict steps raise `AttributeError` at `step.get`. -/
def extractSteps : List Json → Except String String
  | [] => .ok ""
  | step :: rest =>
    match step with
    | .obj f =>
      if isContentBlockStep (lookupField f "type") then do
        let s ← extract_content ((lookupField f "content").getD (.arr []))
        let r ← extractSteps rest
        .ok (s ++ r)
      else extractSteps rest
    | _ => .error "AttributeError: step is not a dict"
termination_by l => sizeOf l
decreasing_by
  all_goals simp
  all_goals first
    | omega
    | (cases hc : lookupField f "content" with
        | none => simp [hc]; have := jsonList_sizeOf_pos rest; omega
        | some v =>
          have := lookupField_sizeOf hc
          simp [hc]; omega)

end

/-!
Derived equations of `extract_content`, one per branch of the priority
chain.
-/

theorem extract_content_str (s : String) : extract_content (.str s) = .ok s := by
  rw [extract_content]

theorem extract_content_num (n : Int) : extract_content (.num n) = .ok "" := by
  rw [extract_content]

theorem extract_content_bool (b : Bool) : extract_content (.bool b) = .ok "" := by
  rw [extract_content]

theorem extract_content_null : extract_content .null = .ok "" := by
  rw [extract_content]

theorem extract_content_arr (l : List Json) : extract_content (.arr l) = extractList l := by
  rw [extract_content]

theorem extract_content_text {fields : List (String × Json)} {v : Json}
    (h1 : lookupField fields "text" = some v) :
    extract_content (.obj fields) = extract_content v := by
  rw [extract_content]
  split <;> simp_all

theorem extract_content_content {fields : List (String × Json)} {v : Json}
    (h1 : lookupField fields "text" = none)
    (h2 : lookupField fields "content" = some v) :
    extract_content (.obj fields) = extract_content v := by
  rw [extract_content]
  split <;> simp_all
  split <;> simp_all

theorem extract_content_steps {fields : List (String × Json)} {s : Json}
    (h1 : lookupField fields "text" = none)
    (h2 : lookupField fields "content" = none)
    (h3 : lookupField fields "steps" = some s) :
    extract_content (.obj fields) = stepsBranch s := by
  rw [extract_content]
  split <;> simp_all
  split <;> simp_all
  split <;> simp_all

theorem stepsBranch_arr (l : List Json) : stepsBranch (.arr l) = extractSteps l := by
  rw [stepsBranch]

theorem extract_content_messages {fields : List (String × Json)} {v : Json}
    (h1 : lookupField fields "text" = none)
    (h2 : lookupField fields "content" = none)
    (h3 : lookupField fields "steps" = none)
    (h4 : lookupField fields "messages" = some v) :
    extract_content (.obj fields) = extract_content v := by
  rw [extract_content]
  split <;> simp_all
  split <;> simp_all
  split <;> simp_all
  split <;> simp_all

theorem extract_content_data {fields : List (String × Json)} {v : Json}
    (h1 : lookupField fields "text" = none)
    (h2 : lookupField fields "content" = none)
    (h3 : lookupField fields "steps" = none)
    (h4 : lookupField fields "messages" = none)
    (h5 : lookupField fields "data" = some v) :
    extract_content (.obj fields) = extract_content v := by
  rw [extract_content]
  split <;> simp_all
  split <;> simp_all
  split <;> simp_all
  split <;> simp_all
  split <;> simp_all

theorem extract_content_obj_none {fields : List (String × Json)}
    (h1 : lookupField fields "text" = none)
    (h2 : lookupField fields "content" = none)
    (h3 : lookupField fields "steps" = none)
    (h4 : lookupField fields "messages" = none)
    (h5 : lookupField fields "data" = none) :
    extract_content (.obj fields) = .ok "" := by
  rw [extract_content]
  split <;> simp_all
  split <;> simp_all
  split <;> simp_all
  split <;> simp_all
  split <;> simp_all

/-!
Totality domain of `extract_content`: `stepsOk` marks exactly the JSON
values on which extraction returns normally; it fails (raises in Python)
precisely on values containing a reachable ill-shaped `steps` field.
-/

mutual

/-- Extraction of this value returns normally: every `steps` field that the
priority traversal actually reaches holds an iterable of dicts (or one of
the two vacuous shapes, empty string / empty dict). -/
def stepsOk : Json → Bool
  | .obj fields =>
    match h1 : lookupField fields "text" with
    | some v => stepsOk v
    | none =>
      match h2 : lookupField fields "content" with
      | some v => stepsOk v
      | none =>
        match h3 : lookupField fields "steps" with
        | some s => stepsBranchOk s
        | none =>
          match h4 : lookupField fields "messages" with
          | some v => stepsOk v
          | none =>
            match h5 : lookupField fields "data" with
            | some v => stepsOk v
            | none => true
  | .arr elems => stepsOkElems elems
  | .str _ => true
  | .num _ => true
  | .bool _ => true
  | .null => true
termination_by j => sizeOf j
decreasing_by
  all_goals simp
  all_goals first
    | omega
    | (have hlf := lookupField_sizeOf h1; omega)
    | (have hlf := lookupField_sizeOf h2; omega)
    | (have hlf := lookupField_sizeOf h3; omega)
    | (have hlf := lookupField_sizeOf h4; omega)
    | (have hlf := lookupField_sizeOf h5; omega)

/-- Normal return of the `steps` dispatch. -/
def stepsBranchOk : Json → Bool
  | .arr steps => stepsOkSteps steps
  | .str s => s = ""
  | .obj [] => true
  | .obj (_ :: _) => false
  | _ => false
termination_by s => sizeOf s
decreasing_by
  all_goals simp

/-- Normal return of element-wise list extraction. -/
def stepsOkElems : List Json → Bool
  | [] => true
  | e :: rest => stepsOk e && stepsOkElems rest
termination_by l => sizeOf l
decreasing_by
  all_goals simp
  all_goals omega

/-- Normal return of the `steps` iteration: every element is a dict and
every `contentBlock` content extracts normally. -/
def stepsOkSteps : List Json → Bool
  | [] => true
  | step :: rest =>
    match step with
    | .obj f =>
      (if isContentBlockStep (lookupField f "type")
        then stepsOk ((lookupField f "content").getD (.arr []))
        else true)
      && stepsOkSteps rest
    | _ => false
termination_by l => sizeOf l
decreasing_by
  all_goals simp
  all_goals first
    | omega
    | (cases hc : lookupField f "content" with
        | none => simp [hc]; have := jsonList_sizeOf_pos rest; omega
        | some v =>
          have := lookupField_sizeOf hc
          simp [hc]; omega)

end

theorem stepsOk_str (s : String) : stepsOk (.str s) = true := by rw [stepsOk]

theorem stepsOk_num (n : Int) : stepsOk (.num n) = true := by rw [stepsOk]

theorem stepsOk_bool (b : Bool) : stepsOk (.bool b) = true := by rw [stepsOk]

theorem stepsOk_null : stepsOk .null = true := by rw [stepsOk]

theorem stepsOk_arr (l : List Json) : stepsOk (.arr l) = stepsOkElems l := by rw [stepsOk]

theorem stepsOk_text {fields : List (String × Json)} {v : Json}
    (h1 : lookupField fields "text" = some v) :
    stepsOk (.obj fields) = stepsOk v := by
  rw [stepsOk]
  split <;> simp_all

theorem stepsOk_content {fields : List (String × Json)} {v : Json}
    (h1 : lookupField fields "text" = none)
    (h2 : lookupField fields "content" = some v) :
    stepsOk (.obj fields) = stepsOk v := by
  rw [stepsOk]
  split <;> simp_all
  split <;> simp_all

theorem stepsOk_steps {fields : List (String × Json)} {s : Json}
    (h1 : lookupField fields "text" = none)
    (h2 : lookupField fields "content" = none)
    (h3 : lookupField fields "steps" = some s) :
    stepsOk (.obj fields) = stepsBranchOk s := by
  rw [stepsOk]
  split <;> simp_all
  split <;> simp_all
  split <;> simp_all

theorem stepsOk_messages {fields : List (String × Json)} {v : Json}
    (h1 : lookupField fields "text" = none)
    (h2 : lookupField fields "content" = none)
    (h3 : lookupField fields "steps" = none)
    (h4 : lookupField fields "messages" = some v) :
    stepsOk (.obj fields) = stepsOk v := by
  rw [stepsOk]
  split <;> simp_all
  split <;> simp_all
  split <;> simp_all
  split <;> simp_all

theorem stepsOk_data {fields : List (String × Json)} {v : Json}
    (h1 : lookupField fields "text" = none)
    (h2 : lookupField fields "content" = none)
    (h3 : lookupField fields "steps" = none)
    (h4 : lookupField fields "messages" = none)
    (h5 : lookupField fields "data" = some v) :
    stepsOk (.obj fields) = stepsOk v := by
  rw [stepsOk]
  split <;> simp_all
  split <;> simp_all
  split <;> simp_all
  split <;> simp_all
  split <;> simp_all

theorem stepsOk_obj_none {fields : List (String × Json)}
    (h1 : lookupField fields "text" = none)
    (h2 : lookupField fields "content" = none)
    (h3 : lookupField fields "steps" = none)
    (h4 : lookupField fields "messages" = none)
    (h5 : lookupField fields "data" = none) :
    stepsOk (.obj fields) = true := by
  rw [stepsOk]
  split <;> simp_all
  split <;> simp_all
  split <;> simp_all
  split <;> simp_all
  split <;> simp_all

/-- Extraction returns normally exactly on the `stepsOk` values. -/
theorem extract_isOk_aux (n : Nat) :
    (∀ j : Json, sizeOf j ≤ n → (extract_content j).isOk = stepsOk j) ∧
    (∀ l : List Json, sizeOf l ≤ n → (extractList l).isOk = stepsOkElems l) ∧
    (∀ l : List Json, sizeOf l ≤ n → (extractSteps l).isOk = stepsOkSteps l) ∧
    (∀ s : Json, sizeOf s ≤ n → (stepsBranch s).isOk = stepsBranchOk s) := by
  induction n using Nat.strong_induction_on with
  | _ n ih =>
    have ihJ : ∀ j : Json, sizeOf j < n → (extract_content j).isOk = stepsOk j := by
      intro j hj
      exact (ih (sizeOf j) hj).1 j le_rfl
    have ihL : ∀ l : List Json, sizeOf l < n → (extractList l).isOk = stepsOkElems l := by
      intro l hl
      exact (ih (sizeOf l) hl).2.1 l le_rfl
    have ihS : ∀ l : List Json, sizeOf l < n → (extractSteps l).isOk = stepsOkSteps l := by
      intro l hl
      exact (ih (sizeOf l) hl).2.2.1 l le_rfl
    have ihB : ∀ s : Json, sizeOf s < n → (stepsBranch s).isOk = stepsBranchOk s := by
      intro s hs
      exact (ih (sizeOf s) hs).2.2.2 s le_rfl
    refine ⟨?_, ?_, ?_, ?_⟩
    · intro j hj
      cases j with
      | str s => rw [extract_content_str, stepsOk_str]; rfl
      | num m => rw [extract_content_num, stepsOk_num]; rfl
      | bool b => rw [extract_content_bool, stepsOk_bool]; rfl
      | null => rw [extract_content_null, stepsOk_null]; rfl
      | arr l =>
        rw [extract_content_arr, stepsOk_arr]
        have hs : sizeOf l < n := by simp at hj; omega
        exact ihL l hs
      | obj fields =>
        have hfs : sizeOf fields < n := by simp at hj; omega
        cases h1 : lookupField fields "text" with
        | some v =>
          rw [extract_content_text h1, stepsOk_text h1]
          exact ihJ v ((lookupField_sizeOf h1).trans hfs)
        | none =>
        cases h2 : lookupField fields "content" with
        | some v =>
          rw [extract_content_content h1 h2, stepsOk_content h1 h2]
          exact ihJ v ((lookupField_sizeOf h2).trans hfs)
        | none =>
        cases h3 : lookupField fields "steps" with
        | some s =>
          rw [extract_content_steps h1 h2 h3, stepsOk_steps h1 h2 h3]
          exact ihB s ((lookupField_sizeOf h3).trans hfs)
        | none =>
        cases h4 : lookupField fields "messages" with
        | some v =>
          rw [extract_content_messages h1 h2 h3 h4, stepsOk_messages h1 h2 h3 h4]
          exact ihJ v ((lookupField_sizeOf h4).trans hfs)
        | none =>
        cases h5 : lookupField fields "data" with
        | some v =>
          rw [extract_content_data h1 h2 h3 h4 h5, stepsOk_data h1 h2 h3 h4 h5]
          exact ihJ v ((lookupField_sizeOf h5).trans hfs)
        | none =>
          rw [extract_content_obj_none h1 h2 h3 h4 h5, stepsOk_obj_none h1 h2 h3 h4 h5]
          rfl
    · intro l hl
      cases l with
      | nil => rw [extractList, stepsOkElems]; rfl
      | cons e rest =>
        have he : sizeOf e < n := by simp at hl; omega
        have hr : sizeOf rest < n := by
          simp at hl
          have := json_sizeOf_pos e
          omega
        rw [extractList, stepsOkElems]
        rw [← ihJ e he, ← ihL rest hr]
        cases extract_content e <;> cases extractList rest <;>
          simp [Bind.bind, Except.bind, Except.isOk, Except.toBool, Pure.pure, Except.pure]
    · intro l hl
      cases l with
      | nil => simp [extractSteps, stepsOkSteps, Except.isOk, Except.toBool]
      | cons step rest =>
        have hr : sizeOf rest < n := by
          simp at hl
          have := json_sizeOf_pos step
          omega
        cases step with
        | obj f =>
          have hc : sizeOf ((lookupField f "content").getD (.arr [])) < n := by
            cases hcl : lookupField f "content" with
            | none => simp at hl ⊢; have := jsonList_sizeOf_pos rest; omega
            | some v =>
              have := lookupField_sizeOf hcl
              simp at hl ⊢
              omega
          by_cases hcb : isContentBlockStep (lookupField f "type")
          · rw [extractSteps, stepsOkSteps]
            simp only [hcb, if_true]
            rw [← ihJ _ hc, ← ihS rest hr]
            cases extract_content ((lookupField f "content").getD (.arr [])) <;>
              cases extractSteps rest <;>
                simp [Bind.bind, Except.bind, Except.isOk, Except.toBool, Pure.pure, Except.pure]
          · rw [extractSteps, stepsOkSteps]
            simp only [hcb, if_false, Bool.true_and]
            exact ihS rest hr
        | str s => simp [extractSteps, stepsOkSteps, Except.isOk, Except.toBool]
        | num m => simp [extractSteps, stepsOkSteps, Except.isOk, Except.toBool]
        | bool b => simp [extractSteps, stepsOkSteps, Except.isOk, Except.toBool]
        | null => simp [extractSteps, stepsOkSteps, Except.isOk, Except.toBool]
        | arr a => simp [extractSteps, stepsOkSteps, Except.isOk, Except.toBool]
    · intro s hs
      cases s with
      | arr steps =>
        have : sizeOf steps < n := by simp at hs; omega
        simpa [stepsBranch, stepsBranchOk] using ihS steps this
      | str t =>
        by_cases ht : t = "" <;>
          simp [stepsBranch, stepsBranchOk, ht, Except.isOk, Except.toBool]
      | obj f =>
        cases f <;> simp [stepsBranch, stepsBranchOk, Except.isOk, Except.toBool]
      | num m => simp [stepsBranch, stepsBranchOk, Except.isOk, Except.toBool]
      | bool b => simp [stepsBranch, stepsBranchOk, Except.isOk, Except.toBool]
      | null => simp [stepsBranch, stepsBranchOk, Except.isOk, Except.toBool]

/-- Extraction returns normally exactly on the `stepsOk` values. -/
theorem extract_content_isOk_eq (j : Json) : (extract_content j).isOk = stepsOk j :=
  (extract_isOk_aux (sizeOf j)).1 j le_rfl

/-!
Characterization of the `steps` iteration for C5.
-/

/-- The `content` node a step contributes, when it is a `contentBlock`. -/
def stepContentNode : Json → Option Json
  | .obj f =>
    if isContentBlockStep (lookupField f "type")
      then some ((lookupField f "content").getD (.arr []))
      else none
  | _ => none

/-- Concatenation of extracted parts, in order, with no separator. -/
def concatParts : List String → String
  | [] => ""
  | s :: rest => s ++ concatParts rest

/-- On a list of dict steps, the iteration extracts exactly the `content`
fields of the `contentBlock` steps, in order, and concatenates the
results; other step types contribute nothing. -/
theorem extractSteps_eq_contentBlocks (steps : List Json)
    (h : ∀ s ∈ steps, ∃ f, s = Json.obj f) :
    extractSteps steps =
      ((steps.filterMap stepContentNode).mapM extract_content).map concatParts := by
  induction steps with
  | nil =>
    simp [extractSteps, List.mapM, List.mapM.loop, Except.map, concatParts, Pure.pure,
      Except.pure]
  | cons step rest ih =>
    obtain ⟨f, rfl⟩ := h step (by simp)
    have ihr := ih fun s hs => h s (by simp [hs])
    rw [extractSteps]
    by_cases hcb : isContentBlockStep (lookupField f "type")
    · simp only [hcb, if_true]
      have : (Json.obj f :: rest).filterMap stepContentNode =
          ((lookupField f "content").getD (.arr [])) :: rest.filterMap stepContentNode := by
        simp [List.filterMap_cons, stepContentNode, hcb]
      rw [this, List.mapM_cons]
      cases hx : extract_content ((lookupField f "content").getD (.arr [])) with
      | error e =>
        simp [Bind.bind, Except.bind, Except.map]
      | ok x =>
        simp only [Bind.bind, Except.bind, hx]
        rw [ihr]
        cases (rest.filterMap stepContentNode).mapM extract_content <;>
          simp [Except.map, Bind.bind, Except.bind, Pure.pure, Except.pure, concatParts]
    · simp only [hcb, if_false]
      have : (Json.obj f :: rest).filterMap stepContentNode =
          rest.filterMap stepContentNode := by
        simp [List.filterMap_cons, stepContentNode, hcb]
      rw [this, ihr]
      simp

/-!
Content cleaning (`clean_content`, src lines 10-30).  The three `re.sub` /
`html.unescape` passes are embedded as left-to-right single-pass scanners
over the character list, mirroring Python's leftmost-match, scan-resumes-
after-the-match substitution semantics.
-/

/-- Scanner state for the markdown-link pass
`re.sub(r'\[([^\]]+)\]\([^)]+\)', r'\1', content)`.
`inLabel lbl` means `'['` plus `lbl` (no `']'` in `lbl`) have been consumed;
`afterLabel lbl` additionally consumed the `']'`; `inUrl lbl url` consumed
`'[' lbl '](' url` with no `')'` in `url`. -/
inductive LinkSt where
  | outside : LinkSt
  | inLabel (lbl : List Char) : LinkSt
  | afterLabel (lbl : List Char) : LinkSt
  | inUrl (lbl : List Char) (url : List Char) : LinkSt

/-- One-character-per-step scanner for the markdown-link substitution.
A completed match `[label](url)` (label and url non-empty, label free of
`']'`, url free of `')'`) is replaced by `label`; on a failed partial match
the consumed characters are emitted verbatim and scanning resumes, which
agrees with Python's leftmost-match semantics because a match can never
begin strictly inside a failed partial match (the label may contain `'['`,
so an inner `'['` would reach the same failure). -/
def linkStep : LinkSt → List Char → List Char
  | .outside, [] => []
  | .inLabel lbl, [] => '[' :: lbl
  | .afterLabel lbl, [] => '[' :: lbl ++ [']']
  | .inUrl lbl url, [] => '[' :: lbl ++ ']' :: '(' :: url
  | .outside, c :: rest =>
    if c = '[' then linkStep (.inLabel []) rest
    else c :: linkStep .outside rest
  | .inLabel lbl, c :: rest =>
    if c = ']' then
      match lbl with
      | [] => '[' :: ']' :: linkStep .outside rest
      | _ => linkStep (.afterLabel lbl) rest
    else linkStep (.inLabel (lbl ++ [c])) rest
  | .afterLabel lbl, c :: rest =>
    if c = '(' then linkStep (.inUrl lbl []) rest
    else if c = '[' then ('[' :: lbl ++ [']']) ++ linkStep (.inLabel []) rest
    else ('[' :: lbl ++ [']']) ++ c :: linkStep .outside rest
  | .inUrl lbl url, c :: rest =>
    if c = ')' then
      match url with
      | [] => ('[' :: lbl ++ [']', '(', ')']) ++ linkStep .outside rest
      | _ => lbl ++ linkStep .outside rest
    else linkStep (.inUrl lbl (url ++ [c])) rest

/-- The markdown-link pass of `clean_content`. -/
def subMarkdownLinks (s : List Char) : List Char := linkStep .outside s

/-- Decoding table for `html.unescape`, restricted to the core named
references; every other `&name;` is left untouched, exactly as Python
leaves unknown entities.  Inputs without `'&'` pass through unchanged. -/
def decodeEntityName (name : List Char) : Option (List Char) :=
  if name = ['a', 'm', 'p'] then some ['&']
  else if name = ['l', 't'] then some ['<']
  else if name = ['g', 't'] then some ['>']
  else if name = ['q', 'u', 'o', 't'] then some ['"']
  else if name = ['a', 'p', 'o', 's'] then some ['\'']
  else if name = ['n', 'b', 's', 'p'] then some [' ']
  else none

/-- Numeric character references `&#NNN;` (decimal only here; every input
in this development is entity-free). -/
def decodeEntity (name : List Char) : Option (List Char) :=
  match name with
  | '#' :: digits =>
    if digits ≠ [] ∧ digits.all Char.isDigit then
      some [Char.ofNat (digits.foldl (fun acc c => acc * 10 + (c.toNat - 48)) 0 % 1114112)]
    else none
  | _ => decodeEntityName name

/-- Scanner for the `html.unescape` pass: `none` = plain text, an entity
candidate accumulates after `'&'` until `';'` (length-capped at 32 like
Python's reference matcher), then is decoded or emitted verbatim. -/
def entityStep : Option (List Char) → List Char → List Char
  | none, [] => []
  | some buf, [] => '&' :: buf
  | none, c :: rest =>
    if c = '&' then entityStep (some []) rest
    else c :: entityStep none rest
  | some buf, c :: rest =>
    if c = ';' then
      match decodeEntity buf with
      | some out => out ++ entityStep none rest
      | none => ('&' :: buf ++ [';']) ++ entityStep none rest
    else if c = '&' then ('&' :: buf) ++ entityStep (some []) rest
    else if buf.length ≥ 32 then ('&' :: buf ++ [c]) ++ entityStep none rest
    else entityStep (some (buf ++ [c])) rest

/-- The `html.unescape` pass of `clean_content` (core entities only). -/
def htmlUnescape (s : List Char) : List Char := entityStep none s

/-- Scanner state for the JSON-artifact pass
`re.sub(r'\"?\{.*?\}\"?', '', content, flags=re.DOTALL)`.
`sawQuote`: a `'"'` was consumed and may begin a match if `'\x7b'` follows;
`inBrace buf`: an opening (optionally quote-prefixed) brace was consumed,
`buf` holds the consumed span for verbatim re-emission if no `'\x7d'`
arrives before the end; `afterClose`: a `'\x7d'` closed a match and one
directly following `'"'` is also consumed. -/
inductive BraceSt where
  | outside : BraceSt
  | sawQuote : BraceSt
  | inBrace (buf : List Char) : BraceSt
  | afterClose : BraceSt

/-- One-character-per-step scanner for the JSON-artifact substitution.
The regex is non-greedy: a span ends at the first `'\x7d'` after its
opening `'\x7b'` (`.*?` with `re.DOTALL` also matches newlines). -/
def braceStep : BraceSt → List Char → List Char
  | .outside, [] => []
  | .sawQuote, [] => ['"']
  | .inBrace buf, [] => buf
  | .afterClose, [] => []
  | .outside, c :: rest =>
    if c = '"' then braceStep .sawQuote rest
    else if c = '\x7b' then braceStep (.inBrace ['\x7b']) rest
    else c :: braceStep .outside rest
  | .sawQuote, c :: rest =>
    if c = '\x7b' then braceStep (.inBrace ['"', '\x7b']) rest
    else if c = '"' then '"' :: braceStep .sawQuote rest
    else '"' :: c :: braceStep .outside rest
  | .inBrace buf, c :: rest =>
    if c = '\x7d' then braceStep .afterClose rest
    else braceStep (.inBrace (buf ++ [c])) rest
  | .afterClose, c :: rest =>
    if c = '"' then braceStep .outside rest
    else if c = '\x7b' then braceStep (.inBrace ['\x7b']) rest
    else c :: braceStep .outside rest

/-- The JSON-artifact pass of `clean_content`. -/
def subJsonArtifacts (s : List Char) : List Char := braceStep .outside s

/-!
General behaviour of the JSON-artifact scanner: a lazily matched span —
from an opening brace (with an optional double quote directly before it)
through the first closing brace, with an optional double quote directly
after it — is removed, and scanning resumes after it.
-/

theorem braceStep_inBrace_close {b : List Char} (c : List Char) (buf : List Char)
    (hb : '\x7d' ∉ b) :
    braceStep (.inBrace buf) (b ++ '\x7d' :: c) = braceStep .afterClose c := by
  induction b generalizing buf with
  | nil => simp [braceStep]
  | cons x b ih =>
    simp at hb
    have hx : x ≠ '\x7d' := fun hcon => hb.1 hcon.symm
    rw [show braceStep (.inBrace buf) ((x :: b) ++ '\x7d' :: c) =
        braceStep (.inBrace (buf ++ [x])) (b ++ '\x7d' :: c) by simp [braceStep, hx]]
    exact ih _ hb.2

theorem braceStep_afterClose (c : List Char) (hc : c.head? ≠ some '"') :
    braceStep .afterClose c = braceStep .outside c := by
  cases c with
  | nil => simp [braceStep]
  | cons x rest =>
    simp at hc
    by_cases hx : x = '\x7b' <;> simp [braceStep, hc, hx]

theorem braceStep_sawQuote (s : List Char) (hs : s.head? ≠ some '\x7b') :
    braceStep .sawQuote s = '"' :: braceStep .outside s := by
  cases s with
  | nil => simp [braceStep]
  | cons x rest =>
    simp at hs
    by_cases hx : x = '"' <;> simp [braceStep, hs, hx]

/-- Lazy-span removal: with no earlier opening brace, no quote directly
before the brace, no closing brace inside the span and no quote directly
after it, the scanner removes exactly the span from the `\x7b` to the first
`\x7d` and continues with the rest. -/
theorem braceStep_removes_lazy_span (a b c : List Char)
    (ha : '\x7b' ∉ a) (haq : a.getLast? ≠ some '"') (hb : '\x7d' ∉ b)
    (hc : c.head? ≠ some '"') :
    braceStep .outside (a ++ '\x7b' :: b ++ '\x7d' :: c) =
      a ++ braceStep .outside c := by
  induction a with
  | nil =>
    simp only [List.nil_append]
    rw [show braceStep .outside ('\x7b' :: b ++ '\x7d' :: c) =
        braceStep (.inBrace ['\x7b']) (b ++ '\x7d' :: c) by simp [braceStep]]
    rw [braceStep_inBrace_close c _ hb, braceStep_afterClose c hc]
  | cons x a ih =>
    simp at ha
    by_cases hx : x = '"'
    · subst hx
      cases a with
      | nil => simp [List.getLast?] at haq
      | cons y a2 =>
        have hy : y ≠ '\x7b' := by
          intro hcon
          exact ha.2 (by simp [hcon])
        rw [show ('"' :: (y :: a2)) ++ '\x7b' :: b ++ '\x7d' :: c =
            '"' :: ((y :: a2) ++ '\x7b' :: b ++ '\x7d' :: c) by simp]
        rw [show braceStep .outside ('"' :: ((y :: a2) ++ '\x7b' :: b ++ '\x7d' :: c)) =
            braceStep .sawQuote ((y :: a2) ++ '\x7b' :: b ++ '\x7d' :: c) by simp [braceStep]]
        rw [braceStep_sawQuote _ (by simp [hy])]
        rw [ih ha.2 (by simpa using haq)]
        simp
    · have hxb : x ≠ '\x7b' := fun hcon => ha.1 hcon.symm
      rw [show (x :: a) ++ '\x7b' :: b ++ '\x7d' :: c =
          x :: (a ++ '\x7b' :: b ++ '\x7d' :: c) by simp]
      rw [show braceStep .outside (x :: (a ++ '\x7b' :: b ++ '\x7d' :: c)) =
          x :: braceStep .outside (a ++ '\x7b' :: b ++ '\x7d' :: c) by
        simp [braceStep, hx, hxb]]
      rw [ih ha.2]
      · simp
      · cases a with
        | nil => simp
        | cons z a3 => simpa using haq

/-- Modelled from the spec: the claimed greedy variant of the artifact
rule — "a \x7b...\x7d span (greedy across newlines), optionally
single-quoted".  A greedy `.*` extends a span from its opening brace to
the LAST closing brace of the remainder; the optional quote is the single
quote character.  `afterLastGreedyClose l` is the suffix after the last
`\x7d` of `l`, when one exists. -/
def afterLastGreedyClose : List Char → Option (List Char)
  | [] => none
  | c :: rest =>
    match afterLastGreedyClose rest with
    | some r => some r
    | none => if c = '\x7d' then some rest else none

/-- Modelled from the spec: single-pass greedy-span removal with optional
single quotes, fuelled by the input length (each step consumes at least
one character, so the fuel never runs out on the concrete inputs it is
evaluated at). -/
def specGreedyBraceSubAux : Nat → List Char → List Char
  | 0, s => s
  | fuel + 1, s =>
    match s with
    | [] => []
    | c :: rest =>
      if c = '\x7b' then
        match afterLastGreedyClose rest with
        | some r =>
          match r with
          | '\'' :: r2 => specGreedyBraceSubAux fuel r2
          | _ => specGreedyBraceSubAux fuel r
        | none => c :: specGreedyBraceSubAux fuel rest
      else if c = '\'' then
        match rest with
        | '\x7b' :: rest2 =>
          match afterLastGreedyClose rest2 with
          | some r =>
            match r with
            | '\'' :: r2 => specGreedyBraceSubAux fuel r2
            | _ => specGreedyBraceSubAux fuel r
          | none => c :: specGreedyBraceSubAux fuel rest
        | _ => c :: specGreedyBraceSubAux fuel rest
      else c :: specGreedyBraceSubAux fuel rest

/-- Modelled from the spec: the whole greedy artifact pass. -/
def specGreedyBraceSub (s : List Char) : List Char :=
  specGreedyBraceSubAux s.length s

/-- Python `str.strip()` whitespace set. -/
def isPythonSpace (c : Char) : Bool :=
  c = ' ' ∨ c = '\t' ∨ c = '\n' ∨ c = '\r' ∨ c = '\x0b' ∨ c = '\x0c'

/-- Python `content.strip()`. -/
def pyStrip (s : List Char) : List Char :=
  ((s.dropWhile isPythonSpace).reverse.dropWhile isPythonSpace).reverse

/-- Embedding of `clean_content` (src lines 10-30): markdown-link removal,
HTML-entity decoding, JSON-artifact removal, whitespace trim, in that
order. -/
def clean_content (content : String) : String :=
  String.mk (pyStrip (subJsonArtifacts (htmlUnescape (subMarkdownLinks content.data))))

/-!
Dialogue formatting (`format_dialogue`, src lines 60-110).  Per-message
processing can raise in Python (non-dict messages, non-integer
`currentlySelected`, a version index below `-len(versions)`, non-numeric
or out-of-range `timestamp`, ...); every such raise is an `Except.error`.
`tqdm` is a transparent iteration wrapper and `logging.warning` has no
effect on the output document, so neither is modelled.
-/

/-- Python `str.capitalize()`: first character upper-cased, the rest
lower-cased. -/
def pyCapitalize (s : String) : String :=
  match s.data with
  | [] => ""
  | c :: rest => String.mk (c.toUpper :: rest.map Char.toLower)

/-- Python `str.lower()`. -/
def pyLower (s : String) : String := String.mk (s.data.map Char.toLower)

/-- Python treats `True`/`False` as the integers 1/0 wherever an index or a
timestamp is expected; any other non-integer value is a type error there. -/
def jsonAsInt : Json → Option Int
  | .num n => some n
  | .bool b => some (if b then 1 else 0)
  | _ => none

/-- Python `len(...)` over the JSON values that support it. -/
def jsonLen : Json → Option Nat
  | .arr l => some l.length
  | .str s => some s.length
  | .obj f => some f.length
  | _ => none

/-- Zero-padded decimal rendering. -/
def padNat (width : Nat) (n : Nat) : String :=
  let digits := toString n
  String.mk (List.replicate (width - digits.length) '0') ++ digits

/-- Civil date from days since 1970-01-01 (proleptic Gregorian), the
standard era-based algorithm with floor division. -/
def civilFromDays (z0 : Int) : Int × Nat × Nat :=
  let z := z0 + 719468
  let era := z.fdiv 146097
  let doe := (z - era * 146097).toNat
  let yoe := (doe - doe / 1460 + doe / 36524 - doe / 146096) / 365
  let y := (yoe : Int) + era * 400
  let doy := doe - (365 * yoe + yoe / 4 - yoe / 100)
  let mp := (5 * doy + 2) / 153
  let d := doy - (153 * mp + 2) / 5 + 1
  let m := if mp < 10 then mp + 3 else mp - 9
  (if m ≤ 2 then y + 1 else y, m, d)

/-- Rendering of
`datetime.fromtimestamp(n, tz=timezone.utc).strftime('%Y-%m-%d %H:%M:%S %Z')`
for an integral Unix timestamp. -/
def utcTimestampString (n : Int) : String :=
  let days := n.fdiv 86400
  let sod := (n - days * 86400).toNat
  let ymd := civilFromDays days
  toString ymd.1.toNat ++ "-" ++ padNat 2 ymd.2.1 ++ "-" ++ padNat 2 ymd.2.2 ++ " " ++
    padNat 2 (sod / 3600) ++ ":" ++ padNat 2 (sod % 3600 / 60) ++ ":" ++ padNat 2 (sod % 60) ++
    " UTC"

/-- Bounds of `datetime.fromtimestamp(..., tz=timezone.utc)`: it raises
outside the years 1..9999, i.e. outside
`[-62135596800, 253402300799]` seconds since the epoch. -/
def fromtimestampOk (n : Int) : Bool :=
  -62135596800 ≤ n ∧ n ≤ 253402300799

/-- The common role/content computation
`role = node.get('role', 'Unknown').capitalize(); content = extract_content(node)`
applied to a version (versions branch of src lines 72-84) or to the
message itself (plain branch).  A non-dict node raises at `.get`; a
non-string role value raises at `.capitalize()`. -/
def versionRoleContent (node : Json) : Except String (String × String) :=
  match node with
  | .obj vf =>
    match (lookupField vf "role").getD (.str "Unknown") with
    | .str role =>
      (extract_content (.obj vf)).map fun content => (pyCapitalize role, content)
    | _ => .error "AttributeError: role has no capitalize"
  | _ => .error "AttributeError: version is not a dict"

/-- Role/content resolution (src lines 72-84): `.ok none` models the
`continue` taken when `currentlySelected` is `>= len(versions)` (Python
logs a warning there); `.error` models an uncaught exception.  Fallibility
sources, in Python evaluation order: a non-dict message raises at `.get`
(or at `'versions' in message` for non-iterable messages); a non-integer
`currentlySelected` raises at `<`; a non-sized `versions` value raises at
`len`; an index below `-len(versions)` raises `IndexError` at
`versions[version_index]` (other negative indices wrap Python-style);
indexing into a string or dict `versions` raises at `.get` or at the
lookup; a non-string `role` value raises at `.capitalize()`. -/
def resolveRoleContent (message : Json) : Except String (Option (String × String)) :=
  match message with
  | .obj fields =>
    match lookupField fields "versions" with
    | some versions =>
      match jsonAsInt ((lookupField fields "currentlySelected").getD (.num 0)) with
      | none => .error "TypeError: currentlySelected is not an int"
      | some version_index =>
        match jsonLen versions with
        | none => .error "TypeError: versions has no len"
        | some len =>
          if version_index < (len : Int) then
            match versions with
            | .arr l =>
              let idx : Int := if version_index < 0 then (len : Int) + version_index else version_index
              if h : 0 ≤ idx ∧ idx.toNat < l.length then
                (versionRoleContent (l.get ⟨idx.toNat, h.2⟩)).map some
              else .error "IndexError: list index out of range"
            | _ => .error "TypeError: versions is not a list"
          else .ok none
    | none => (versionRoleContent (.obj fields)).map some
  | _ => .error "TypeError: message is not a dict"

/-- Timestamp rendering (src lines 91-96): the string appended after the
role, `" [...]"` when enabled and present, `""` otherwise. -/
def timestampString (include_timestamps : Bool) (message : Json) : Except String String :=
  match message with
  | .obj fields =>
    match include_timestamps, lookupField fields "timestamp" with
    | true, some t =>
      match jsonAsInt t with
      | some n =>
        if fromtimestampOk n then .ok (" [" ++ utcTimestampString n ++ "]")
        else .error "ValueError: timestamp out of range"
      | none => .error "TypeError: timestamp is not a number"
    | _, _ => .ok ""
  | _ => .error "TypeError: message is not a dict"

/-- Per-message template (src lines 98-106), selected by `output_format`;
any format other than `markdown`/`html` falls through to the plain-text
template. -/
def renderEntry (output_format role timestamp_str content : String) : String :=
  if output_format = "markdown" then
    "### " ++ role ++ timestamp_str ++ "\n\n" ++ content ++ "\n\n"
  else if output_format = "html" then
    "<div class=\"" ++ pyLower role ++ "\">\n    <h3>" ++ role ++ timestamp_str ++ "</h3>\n    <p>" ++
      content ++ "</p>\n</div>\n"
  else
    role ++ timestamp_str ++ ":\n" ++ content ++ "\n\n"

/-- One iteration of the message loop (src lines 70-108): `.ok none` when
the message contributes nothing to the output (version skip or empty
cleaned content), `.ok (some s)` when it appends `s`. -/
def renderMessage (output_format : String) (include_timestamps : Bool) (message : Json) :
    Except String (Option String) := do
  match ← resolveRoleContent message with
  | none => pure none
  | some (role, rawContent) =>
    let content := clean_content rawContent
    if content = "" then pure none
    else do
      let timestamp_str ← timestampString include_timestamps message
      pure (some (renderEntry output_format role timestamp_str content))

/-- One fold step of the message loop: thread the accumulated document
through `renderMessage`. -/
def formatStep (fmt : String) (its : Bool) (acc : String) (message : Json) :
    Except String String := do
  match ← renderMessage fmt its message with
  | none => pure acc
  | some s => pure (acc ++ s)

/-- Embedding of `format_dialogue` (src lines 60-110). -/
def format_dialogue (messages : List Json) (output_format : String)
    (include_timestamps : Bool) : Except String String :=
  messages.foldlM (formatStep output_format include_timestamps) ""

/-!
Structural lemmas about `format_dialogue` and the per-message skip
conditions.
-/

theorem formatStep_eq (fmt : String) (its : Bool) (acc : String) (message : Json) :
    formatStep fmt its acc message =
      match renderMessage fmt its message with
      | .error e => .error e
      | .ok none => .ok acc
      | .ok (some s) => .ok (acc ++ s) := by
  cases hr : renderMessage fmt its message with
  | error e => simp [formatStep, Bind.bind, Except.bind, hr]
  | ok r => cases r <;> simp [formatStep, Bind.bind, Except.bind, hr, Pure.pure, Except.pure]

theorem format_dialogue_nil (fmt : String) (its : Bool) :
    format_dialogue [] fmt its = .ok "" := rfl

theorem formatFold_acc (fmt : String) (its : Bool) (messages : List Json) :
    ∀ acc : String,
      messages.foldlM (formatStep fmt its) acc =
        (messages.foldlM (formatStep fmt its) "").map fun s => acc ++ s := by
  induction messages with
  | nil => intro acc; simp [List.foldlM, Except.map, Pure.pure, Except.pure]
  | cons m rest ih =>
    intro acc
    rw [List.foldlM_cons, List.foldlM_cons, formatStep_eq, formatStep_eq]
    cases hr : renderMessage fmt its m with
    | error e => simp [Bind.bind, Except.bind, Except.map]
    | ok r =>
      cases r with
      | none =>
        simp only [Bind.bind, Except.bind]
        rw [ih acc]
      | some s =>
        simp only [Bind.bind, Except.bind]
        rw [ih (acc ++ s), ih ("" ++ s)]
        cases rest.foldlM (formatStep fmt its) "" <;>
          simp [Except.map, String.append_assoc]

theorem format_dialogue_cons (fmt : String) (its : Bool) (m : Json) (rest : List Json) :
    format_dialogue (m :: rest) fmt its =
      match renderMessage fmt its m with
      | .error e => .error e
      | .ok none => format_dialogue rest fmt its
      | .ok (some s) => (format_dialogue rest fmt its).map fun r => s ++ r := by
  rw [format_dialogue, List.foldlM_cons, formatStep_eq]
  cases hr : renderMessage fmt its m with
  | error e => simp [Bind.bind, Except.bind]
  | ok r =>
    cases r with
    | none =>
      simp only [Bind.bind, Except.bind]
      rw [format_dialogue]
    | some s =>
      simp only [Bind.bind, Except.bind]
      rw [formatFold_acc, ← format_dialogue]
      cases format_dialogue rest fmt its <;> simp [Except.map]

/-- The skip condition of src lines 75-81: the message carries `versions`,
`currentlySelected` and `len(versions)` are both computable, and the guard
`version_index < len(versions)` fails. -/
def versionSkipped (message : Json) : Bool :=
  match message with
  | .obj fields =>
    match lookupField fields "versions" with
    | some versions =>
      match jsonAsInt ((lookupField fields "currentlySelected").getD (.num 0)),
          jsonLen versions with
      | some i, some len => !(i < (len : Int))
      | _, _ => false
    | none => false
  | _ => false

/-- The skip condition of src lines 88-89: role/content resolution
succeeds and the cleaned content is empty. -/
def emptyContentSkipped (message : Json) : Bool :=
  match resolveRoleContent message with
  | .ok (some (_, raw)) => clean_content raw = ""
  | _ => false

/-- The message contributes a rendered entry to the output document. -/
def renderedEntry (fmt : String) (its : Bool) (message : Json) : Bool :=
  match renderMessage fmt its message with
  | .ok (some _) => true
  | _ => false

theorem resolveRoleContent_none_iff (message : Json) :
    resolveRoleContent message = .ok none ↔ versionSkipped message = true := by
  cases message <;> simp [resolveRoleContent, versionSkipped]
  case obj fields =>
    cases hv : lookupField fields "versions" with
    | none =>
      simp [hv]
      cases versionRoleContent (.obj fields) <;> simp [Except.map]
    | some versions =>
      simp [hv]
      cases hi : jsonAsInt ((lookupField fields "currentlySelected").getD (.num 0)) with
      | none => simp [hi]
      | some i =>
        simp [hi]
        cases hl : jsonLen versions with
        | none => simp [hl]
        | some len =>
          simp [hl]
          by_cases hg : i < (len : Int)
          · simp [hg]
            cases versions <;> simp [jsonLen] at hl ⊢
            all_goals first
              | omega
              | ((repeat' split) <;> (try simp) <;>
                  first
                    | omega
                    | (cases versionRoleContent _ <;> simp [Except.map] <;> omega))
          · simp [hg]
            omega

theorem resolveRoleContent_some_versionSkipped {message : Json}
    {rc : String × String} (h : resolveRoleContent message = .ok (some rc)) :
    versionSkipped message = false := by
  by_cases hv : versionSkipped message
  · rw [← resolveRoleContent_none_iff] at hv
    rw [h] at hv
    simp at hv
  · simpa using hv

theorem renderMessage_of_resolve_error {message : Json} {e : String}
    (fmt : String) (its : Bool) (h : resolveRoleContent message = .error e) :
    renderMessage fmt its message = .error e := by
  simp [renderMessage, Bind.bind, Except.bind, h]

theorem renderMessage_of_resolve_none {message : Json}
    (fmt : String) (its : Bool) (h : resolveRoleContent message = .ok none) :
    renderMessage fmt its message = .ok none := by
  simp [renderMessage, Bind.bind, Except.bind, h, Pure.pure, Except.pure]

theorem renderMessage_of_empty {message : Json} {role raw : String}
    (fmt : String) (its : Bool) (h : resolveRoleContent message = .ok (some (role, raw)))
    (he : clean_content raw = "") :
    renderMessage fmt its message = .ok none := by
  simp [renderMessage, Bind.bind, Except.bind, h, he, Pure.pure, Except.pure]

theorem renderMessage_of_nonempty {message : Json} {role raw : String}
    (fmt : String) (its : Bool) (h : resolveRoleContent message = .ok (some (role, raw)))
    (he : clean_content raw ≠ "") :
    renderMessage fmt its message =
      (timestampString its message).map fun ts =>
        some (renderEntry fmt role ts (clean_content raw)) := by
  simp [renderMessage, Bind.bind, Except.bind, h, he, Pure.pure, Except.pure]
  cases timestampString its message <;> simp [Except.map, Pure.pure, Except.pure]


/-!
Wall-clock independence (C8): an impure reimplementation could read the
ambient wall clock or the host's local UTC offset when rendering
timestamps.  `datetime.fromtimestamp(message['timestamp'], tz=timezone.utc)`
reads neither — the zone is the fixed UTC object and the instant comes from
the message — so the environment-threaded formatter ignores its
environment arguments.
-/

/-- Timestamp rendering with the ambient environment (wall-clock seconds,
local UTC offset in seconds) in scope: with `tz=timezone.utc` the
conversion uses only the message's own field, so the environment is not
consulted. -/
def timestampStringEnv (_wallClock _localUtcOffset : Int) (include_timestamps : Bool)
    (message : Json) : Except String String :=
  timestampString include_timestamps message

/-- Per-message rendering with the ambient environment in scope. -/
def renderMessageEnv (wallClock localUtcOffset : Int) (output_format : String)
    (include_timestamps : Bool) (message : Json) : Except String (Option String) := do
  match ← resolveRoleContent message with
  | none => pure none
  | some (role, rawContent) =>
    let content := clean_content rawContent
    if content = "" then pure none
    else do
      let timestamp_str ← timestampStringEnv wallClock localUtcOffset include_timestamps message
      pure (some (renderEntry output_format role timestamp_str content))

/-- `format_dialogue` with the ambient environment in scope. -/
def format_dialogue_env (wallClock localUtcOffset : Int) (messages : List Json)
    (output_format : String) (include_timestamps : Bool) : Except String String :=
  messages.foldlM
    (fun acc message => do
      match ← renderMessageEnv wallClock localUtcOffset output_format include_timestamps message with
      | none => pure acc
      | some s => pure (acc ++ s))
    ""

theorem format_dialogue_env_eq (wallClock localUtcOffset : Int) (messages : List Json)
    (output_format : String) (include_timestamps : Bool) :
    format_dialogue_env wallClock localUtcOffset messages output_format include_timestamps =
      format_dialogue messages output_format include_timestamps := rfl

/-!
Counting rendered entries (C7).
-/

theorem renderMessage_trichotomy (fmt : String) (its : Bool) (m : Json)
    (h : (renderMessage fmt its m).isOk = true) :
    (renderedEntry fmt its m = true ∧ versionSkipped m = false ∧ emptyContentSkipped m = false) ∨
    (renderedEntry fmt its m = false ∧ versionSkipped m = true ∧ emptyContentSkipped m = false) ∨
    (renderedEntry fmt its m = false ∧ versionSkipped m = false ∧ emptyContentSkipped m = true) := by
  cases hr : resolveRoleContent m with
  | error e =>
    rw [renderMessage_of_resolve_error fmt its hr] at h
    simp [Except.isOk, Except.toBool] at h
  | ok r =>
    cases r with
    | none =>
      right; left
      have hvs := (resolveRoleContent_none_iff m).1 hr
      refine ⟨?_, hvs, ?_⟩
      · simp [renderedEntry, renderMessage_of_resolve_none fmt its hr]
      · simp [emptyContentSkipped, hr]
    | some rc =>
      obtain ⟨role, raw⟩ := rc
      have hvs := resolveRoleContent_some_versionSkipped hr
      by_cases he : clean_content raw = ""
      · right; right
        refine ⟨?_, hvs, ?_⟩
        · simp [renderedEntry, renderMessage_of_empty fmt its hr he]
        · simp [emptyContentSkipped, hr, he]
      · left
        have hrm := renderMessage_of_nonempty fmt its hr he
        refine ⟨?_, hvs, ?_⟩
        · rw [renderedEntry, hrm]
          cases hts : timestampString its m with
          | error e =>
            rw [hrm, hts] at h
            simp [Except.map, Except.isOk, Except.toBool] at h
          | ok ts => simp [Except.map]
        · simp [emptyContentSkipped, hr, he]

theorem count_partition (fmt : String) (its : Bool) (msgs : List Json)
    (h : ∀ m ∈ msgs, (renderMessage fmt its m).isOk = true) :
    msgs.countP (renderedEntry fmt its) + msgs.countP versionSkipped +
      msgs.countP emptyContentSkipped = msgs.length := by
  induction msgs with
  | nil => simp
  | cons m rest ih =>
    have hm := h m (by simp)
    have hrest := ih fun x hx => h x (by simp [hx])
    rcases renderMessage_trichotomy fmt its m hm with ⟨h1, h2, h3⟩ | ⟨h1, h2, h3⟩ | ⟨h1, h2, h3⟩ <;>
      simp [List.countP_cons, h1, h2, h3] <;> omega

/-- Under error-free processing the output document is exactly the
concatenation of the rendered entries, in message order. -/
theorem format_dialogue_document (fmt : String) (its : Bool) (msgs : List Json)
    (h : ∀ m ∈ msgs, (renderMessage fmt its m).isOk = true) :
    format_dialogue msgs fmt its =
      .ok (concatParts (msgs.filterMap fun m => (renderMessage fmt its m).toOption.getD none)) := by
  induction msgs with
  | nil => rfl
  | cons m rest ih =>
    have hm := h m (by simp)
    have hrest := ih fun x hx => h x (by simp [hx])
    rw [format_dialogue_cons]
    cases hr : renderMessage fmt its m with
    | error e => rw [hr] at hm; simp [Except.isOk, Except.toBool] at hm
    | ok r =>
      cases r with
      | none => simp [hrest, hr, Except.toOption]
      | some s => simp [hrest, hr, Except.toOption, Except.map, concatParts]

/-!
Skipping a message with an out-of-range version index (C2).
-/

theorem versionSkipped_renderMessage (fmt : String) (its : Bool) {m : Json}
    (h : versionSkipped m = true) : renderMessage fmt its m = .ok none :=
  renderMessage_of_resolve_none fmt its ((resolveRoleContent_none_iff m).2 h)

theorem format_dialogue_skip (fmt : String) (its : Bool) (pre post : List Json) {m : Json}
    (h : versionSkipped m = true) :
    format_dialogue (pre ++ m :: post) fmt its = format_dialogue (pre ++ post) fmt its := by
  induction pre with
  | nil =>
    simp only [List.nil_append]
    rw [format_dialogue_cons, versionSkipped_renderMessage fmt its h]
  | cons p pre ih =>
    simp only [List.cons_append]
    rw [format_dialogue_cons, format_dialogue_cons, ih]

/-!
Auxiliary congruence lemmas for C10.
-/

/-- A leading field whose key is none of the five priority keys does not
affect extraction. -/
theorem extract_content_skip_key (key : String) (t : Json) (vf : List (String × Json))
    (h1 : key ≠ "text") (h2 : key ≠ "content") (h3 : key ≠ "steps")
    (h4 : key ≠ "messages") (h5 : key ≠ "data") :
    extract_content (.obj ((key, t) :: vf)) = extract_content (.obj vf) := by
  cases k1 : lookupField vf "text" with
  | some v =>
    rw [@extract_content_text ((key, t) :: vf) v (by simp [lookupField, h1, k1]),
      extract_content_text k1]
  | none =>
  cases k2 : lookupField vf "content" with
  | some v =>
    rw [@extract_content_content ((key, t) :: vf) v (by simp [lookupField, h1, k1])
        (by simp [lookupField, h2, k2]),
      extract_content_content k1 k2]
  | none =>
  cases k3 : lookupField vf "steps" with
  | some s =>
    rw [@extract_content_steps ((key, t) :: vf) s (by simp [lookupField, h1, k1])
        (by simp [lookupField, h2, k2]) (by simp [lookupField, h3, k3]),
      extract_content_steps k1 k2 k3]
  | none =>
  cases k4 : lookupField vf "messages" with
  | some v =>
    rw [@extract_content_messages ((key, t) :: vf) v (by simp [lookupField, h1, k1])
        (by simp [lookupField, h2, k2]) (by simp [lookupField, h3, k3])
        (by simp [lookupField, h4, k4]),
      extract_content_messages k1 k2 k3 k4]
  | none =>
  cases k5 : lookupField vf "data" with
  | some v =>
    rw [@extract_content_data ((key, t) :: vf) v (by simp [lookupField, h1, k1])
        (by simp [lookupField, h2, k2]) (by simp [lookupField, h3, k3])
        (by simp [lookupField, h4, k4]) (by simp [lookupField, h5, k5]),
      extract_content_data k1 k2 k3 k4 k5]
  | none =>
    rw [extract_content_obj_none (by simp [lookupField, h1, k1])
        (by simp [lookupField, h2, k2]) (by simp [lookupField, h3, k3])
        (by simp [lookupField, h4, k4]) (by simp [lookupField, h5, k5]),
      extract_content_obj_none k1 k2 k3 k4 k5]

/-- Two messages with equal role/content resolution and equal timestamp
rendering render identically. -/
theorem renderMessage_congr {a b : Json} (fmt : String) (ita itb : Bool)
    (hres : resolveRoleContent a = resolveRoleContent b)
    (hts : timestampString ita a = timestampString itb b) :
    renderMessage fmt ita a = renderMessage fmt itb b := by
  rw [renderMessage, renderMessage, hres, hts]

/-!
The claims.
-/

/-- C1 counterexample: the content extractor is not total — on the
JSON-representable value `\x7b"steps": 0\x7d` the Python code raises
`TypeError` at `for step in item.get('steps', [])` (an int is not
iterable), so extraction fails rather than returning a string. -/
theorem C1_counterexample :
    extract_content (.obj [("steps", Json.num 0)]) =
      .error "TypeError: steps value is not iterable" := by
  rw [extract_content_steps (by rfl) (by rfl) (by rfl)]
  simp [stepsBranch]

/-- C1 (amended): the content extractor returns a string and never fails
on every JSON-representable value whose reachable `steps` fields are
well shaped (`stepsOk`); shapes such as `\x7b"steps": 0\x7d` instead raise а
type error.  Unrecognized scalars (number, boolean, null) and mappings
with none of the five known keys still resolve to the empty string. -/
theorem C1_theorem :
    (∀ j : Json, stepsOk j = true → (extract_content j).isOk = true) ∧
    (∀ n : Int, extract_content (.num n) = .ok "") ∧
    (∀ b : Bool, extract_content (.bool b) = .ok "") ∧
    (extract_content .null = .ok "") ∧
    (∀ fields : List (String × Json),
      lookupField fields "text" = none → lookupField fields "content" = none →
      lookupField fields "steps" = none → lookupField fields "messages" = none →
      lookupField fields "data" = none → extract_content (.obj fields) = .ok "") := by
  refine ⟨?_, extract_content_num, extract_content_bool, extract_content_null, ?_⟩
  · intro j hj
    rw [extract_content_isOk_eq, hj]
  · intro fields h1 h2 h3 h4 h5
    exact extract_content_obj_none h1 h2 h3 h4 h5

theorem C1_witness :
    stepsOk (.obj [("steps", Json.arr [Json.obj [("type", Json.str "contentBlock"),
        ("content", Json.str "y")]])]) = true ∧
    (extract_content (.obj [("steps", Json.arr [Json.obj [("type", Json.str "contentBlock"),
        ("content", Json.str "y")]])])).isOk = true := by
  have hok : stepsOk (.obj [("steps", Json.arr [Json.obj [("type", Json.str "contentBlock"),
      ("content", Json.str "y")]])]) = true := by
    rw [stepsOk_steps (by rfl) (by rfl) (by rfl)]
    rw [stepsBranchOk, stepsOkSteps]
    simp [isContentBlockStep, lookupField, stepsOk_str, stepsOkSteps]
  exact ⟨hok, C1_theorem.1 _ hok⟩

/-- C3: the extractor inspects `text`, `content`, `steps`, `messages`,
`data` in this fixed priority order; only the first present key determines
the result (no fallthrough); in particular `text` always beats
`content`. -/
theorem C3_theorem (fields : List (String × Json)) :
    (∀ v, lookupField fields "text" = some v →
      extract_content (.obj fields) = extract_content v) ∧
    (lookupField fields "text" = none →
      ∀ v, lookupField fields "content" = some v →
        extract_content (.obj fields) = extract_content v) ∧
    (lookupField fields "text" = none → lookupField fields "content" = none →
      ∀ s, lookupField fields "steps" = some s →
        extract_content (.obj fields) = stepsBranch s) ∧
    (lookupField fields "text" = none → lookupField fields "content" = none →
      lookupField fields "steps" = none →
      ∀ v, lookupField fields "messages" = some v →
        extract_content (.obj fields) = extract_content v) ∧
    (lookupField fields "text" = none → lookupField fields "content" = none →
      lookupField fields "steps" = none → lookupField fields "messages" = none →
      ∀ v, lookupField fields "data" = some v →
        extract_content (.obj fields) = extract_content v) ∧
    (lookupField fields "text" = none → lookupField fields "content" = none →
      lookupField fields "steps" = none → lookupField fields "messages" = none →
      lookupField fields "data" = none → extract_content (.obj fields) = .ok "") := by
  refine ⟨?_, ?_, ?_, ?_, ?_, ?_⟩
  · intro v h1; exact extract_content_text h1
  · intro h1 v h2; exact extract_content_content h1 h2
  · intro h1 h2 s h3; exact extract_content_steps h1 h2 h3
  · intro h1 h2 h3 v h4; exact extract_content_messages h1 h2 h3 h4
  · intro h1 h2 h3 h4 v h5; exact extract_content_data h1 h2 h3 h4 h5
  · intro h1 h2 h3 h4 h5; exact extract_content_obj_none h1 h2 h3 h4 h5

theorem C3_witness :
    lookupField [("content", Json.str "b"), ("text", Json.str "a")] "text" =
      some (Json.str "a") ∧
    extract_content (.obj [("content", Json.str "b"), ("text", Json.str "a")]) =
      extract_content (Json.str "a") ∧
    extract_content (.obj [("content", Json.str "b"), ("text", Json.str "a")]) = .ok "a" := by
  have h := (C3_theorem [("content", Json.str "b"), ("text", Json.str "a")]).1
    (Json.str "a") (by rfl)
  exact ⟨rfl, h, by rw [h, extract_content_str]⟩

/-- A plain (version-free) dict message renders from its own `role` field
and its own extracted content. -/
theorem renderMessage_plain (fmt : String) (its : Bool) (fields : List (String × Json))
    (role raw : String)
    (hv : lookupField fields "versions" = none)
    (hrole : (lookupField fields "role").getD (.str "Unknown") = .str role)
    (hex : extract_content (.obj fields) = .ok raw) :
    renderMessage fmt its (.obj fields) =
      if clean_content raw = "" then .ok none
      else (timestampString its (.obj fields)).map fun ts =>
        some (renderEntry fmt (pyCapitalize role) ts (clean_content raw)) := by
  have hres : resolveRoleContent (.obj fields) = .ok (some (pyCapitalize role, raw)) := by
    simp [resolveRoleContent, hv, versionRoleContent, hrole, hex, Except.map]
  by_cases he : clean_content raw = ""
  · rw [renderMessage_of_empty fmt its hres he, he]
    simp
  · rw [renderMessage_of_nonempty fmt its hres he]
    simp [he]

/-- C4: the end-to-end example — two plain text messages, format `text`,
timestamps disabled — produces exactly the claimed document (markdown link
reduced to its label). -/
theorem C4_theorem :
    format_dialogue
      [ .obj [("role", Json.str "user"), ("text", Json.str "Hello [link](http://a.com)")],
        .obj [("role", Json.str "assistant"), ("text", Json.str "Hi there")]]
      "text" false
      = .ok "User:\nHello link\n\nAssistant:\nHi there\n\n" := by
  have h1 : extract_content (.obj [("role", Json.str "user"),
      ("text", Json.str "Hello [link](http://a.com)")]) = .ok "Hello [link](http://a.com)" := by
    rw [extract_content_text (by rfl), extract_content_str]
  have h2 : extract_content (.obj [("role", Json.str "assistant"),
      ("text", Json.str "Hi there")]) = .ok "Hi there" := by
    rw [extract_content_text (by rfl), extract_content_str]
  have r1 : renderMessage "text" false (.obj [("role", Json.str "user"),
      ("text", Json.str "Hello [link](http://a.com)")]) =
      .ok (some "User:\nHello link\n\n") := by
    rw [renderMessage_plain "text" false
      [("role", Json.str "user"), ("text", Json.str "Hello [link](http://a.com)")]
      "user" "Hello [link](http://a.com)" rfl rfl h1]
    decide
  have r2 : renderMessage "text" false (.obj [("role", Json.str "assistant"),
      ("text", Json.str "Hi there")]) = .ok (some "Assistant:\nHi there\n\n") := by
    rw [renderMessage_plain "text" false
      [("role", Json.str "assistant"), ("text", Json.str "Hi there")]
      "assistant" "Hi there" rfl rfl h2]
    decide
  rw [format_dialogue_cons, r1, format_dialogue_cons, r2, format_dialogue_nil]
  decide

/-- C5: on a list of dict steps only the `contentBlock` entries contribute
— each via its `content` field (default empty list), recursively
extracted, concatenated in order — and other step types are skipped; on
the spec's example only `"y"` is extracted. -/
theorem C5_theorem :
    (∀ steps : List Json, (∀ s ∈ steps, ∃ f, s = Json.obj f) →
      extractSteps steps =
        ((steps.filterMap stepContentNode).mapM extract_content).map concatParts) ∧
    extract_content (.obj [("steps", Json.arr
        [Json.obj [("type", Json.str "note"), ("content", Json.str "x")],
         Json.obj [("type", Json.str "contentBlock"), ("content", Json.str "y")]])])
      = .ok "y" := by
  constructor
  · exact extractSteps_eq_contentBlocks
  · rw [extract_content_steps (by rfl) (by rfl) (by rfl), stepsBranch]
    rw [extractSteps, extractSteps, extractSteps]
    simp [isContentBlockStep, lookupField, extract_content_str, Bind.bind, Except.bind,
      Pure.pure, Except.pure]

theorem C5_witness :
    (∀ s ∈ [Json.obj [("type", Json.str "note"), ("content", Json.str "x")],
        Json.obj [("type", Json.str "contentBlock"), ("content", Json.str "y")]],
      ∃ f, s = Json.obj f) ∧
    extractSteps [Json.obj [("type", Json.str "note"), ("content", Json.str "x")],
        Json.obj [("type", Json.str "contentBlock"), ("content", Json.str "y")]] =
      .ok "y" := by
  have hobj : ∀ s ∈ [Json.obj [("type", Json.str "note"), ("content", Json.str "x")],
      Json.obj [("type", Json.str "contentBlock"), ("content", Json.str "y")]],
      ∃ f, s = Json.obj f := by
    intro s hs
    simp at hs
    rcases hs with rfl | rfl
    · exact ⟨_, rfl⟩
    · exact ⟨_, rfl⟩
  refine ⟨hobj, ?_⟩
  rw [C5_theorem.1 _ hobj]
  simp [stepContentNode, isContentBlockStep, lookupField, List.mapM, List.mapM.loop,
    extract_content_str, Except.map, concatParts, Bind.bind, Except.bind, Pure.pure,
    Except.pure]

/-- C2 (amended): a message whose resolved `currentlySelected` index is at
least `len(versions)` is skipped and the rest of the conversation is
formatted as if the message were absent (same relative order). -/
theorem C2_theorem (fmt : String) (its : Bool) (pre post : List Json)
    (fields : List (String × Json)) (versions : Json) (i : Int) (len : Nat)
    (hv : lookupField fields "versions" = some versions)
    (hi : jsonAsInt ((lookupField fields "currentlySelected").getD (.num 0)) = some i)
    (hl : jsonLen versions = some len)
    (hge : (len : Int) ≤ i) :
    format_dialogue (pre ++ .obj fields :: post) fmt its =
      format_dialogue (pre ++ post) fmt its := by
  apply format_dialogue_skip
  simp [versionSkipped, hv, hi, hl]
  omega

/-- C2 counterexample: an index that is out of range for the versions
sequence on the negative side (`currentlySelected = -5` with one version)
is NOT skipped with a warning — Python raises an uncaught `IndexError` at
`versions[version_index]`, aborting the whole run, so the remaining
messages are not processed. -/
theorem C2_counterexample :
    format_dialogue
      [ .obj [("versions", Json.arr [Json.obj [("role", Json.str "a"), ("text", Json.str "A")]]),
          ("currentlySelected", Json.num (-5))],
        .obj [("role", Json.str "x"), ("text", Json.str "B")]] "text" false =
      .error "IndexError: list index out of range" ∧
    format_dialogue [.obj [("role", Json.str "x"), ("text", Json.str "B")]] "text" false =
      .ok "X:\nB\n\n" ∧
    format_dialogue
      [ .obj [("versions", Json.arr [Json.obj [("role", Json.str "a"), ("text", Json.str "A")]]),
          ("currentlySelected", Json.num (-5))],
        .obj [("role", Json.str "x"), ("text", Json.str "B")]] "text" false ≠
      format_dialogue [.obj [("role", Json.str "x"), ("text", Json.str "B")]] "text" false := by
  have hbad : resolveRoleContent (.obj [("versions", Json.arr
      [Json.obj [("role", Json.str "a"), ("text", Json.str "A")]]),
      ("currentlySelected", Json.num (-5))]) = .error "IndexError: list index out of range" := by
    simp [resolveRoleContent, lookupField, jsonAsInt, jsonLen]
  have hex : extract_content (.obj [("role", Json.str "x"), ("text", Json.str "B")]) =
      .ok "B" := by
    rw [extract_content_text (by rfl), extract_content_str]
  have hgood : renderMessage "text" false (.obj [("role", Json.str "x"),
      ("text", Json.str "B")]) = .ok (some "X:\nB\n\n") := by
    rw [renderMessage_plain "text" false [("role", Json.str "x"), ("text", Json.str "B")]
      "x" "B" rfl rfl hex]
    decide
  have h1 : format_dialogue
      [ .obj [("versions", Json.arr [Json.obj [("role", Json.str "a"), ("text", Json.str "A")]]),
          ("currentlySelected", Json.num (-5))],
        .obj [("role", Json.str "x"), ("text", Json.str "B")]] "text" false =
      .error "IndexError: list index out of range" := by
    rw [format_dialogue_cons, renderMessage_of_resolve_error "text" false hbad]
  have h2 : format_dialogue [.obj [("role", Json.str "x"), ("text", Json.str "B")]]
      "text" false = .ok "X:\nB\n\n" := by
    rw [format_dialogue_cons, hgood, format_dialogue_nil]
    decide
  refine ⟨h1, h2, ?_⟩
  rw [h1, h2]
  decide

theorem C2_witness :
    lookupField [("versions", Json.arr [Json.obj [("role", Json.str "a"),
        ("text", Json.str "A")]]), ("currentlySelected", Json.num 5)] "versions" =
      some (Json.arr [Json.obj [("role", Json.str "a"), ("text", Json.str "A")]]) ∧
    format_dialogue
      [ .obj [("versions", Json.arr [Json.obj [("role", Json.str "a"), ("text", Json.str "A")]]),
          ("currentlySelected", Json.num 5)],
        .obj [("role", Json.str "x"), ("text", Json.str "B")]] "text" false =
      format_dialogue [.obj [("role", Json.str "x"), ("text", Json.str "B")]] "text" false := by
  refine ⟨rfl, ?_⟩
  exact C2_theorem "text" false []
    [.obj [("role", Json.str "x"), ("text", Json.str "B")]]
    [("versions", Json.arr [Json.obj [("role", Json.str "a"), ("text", Json.str "A")]]),
      ("currentlySelected", Json.num 5)]
    (Json.arr [Json.obj [("role", Json.str "a"), ("text", Json.str "A")]]) 5 1
    rfl rfl rfl (by omega)

/-- C6 counterexample: the artifact pattern is lazy, not greedy, and the
optional quote is the double quote, not the single quote.  On
`a\x7bx\x7db\x7by\x7dc` the code removes the two minimal spans giving `abc`, while
a greedy span (to the last `\x7d`) would give `ac`; on `m'\x7bx\x7d'n` the code
keeps the single quotes (`m''n`) while the claimed rule would remove them
(`mn`). -/
theorem C6_counterexample :
    clean_content "a\x7bx\x7db\x7by\x7dc" = "abc" ∧
    String.mk (specGreedyBraceSub "a\x7bx\x7db\x7by\x7dc".data) = "ac" ∧
    clean_content "m'\x7bx\x7d'n" = "m''n" ∧
    String.mk (specGreedyBraceSub "m'\x7bx\x7d'n".data) = "mn" ∧
    ("abc" : String) ≠ "ac" ∧ ("m''n" : String) ≠ "mn" := by
  refine ⟨by decide, by decide, by decide, by decide, by decide, by decide⟩

/-- C6 (amended): the cleaner removes every lazily matched JSON-object-like
span — from an opening brace (with an optional DOUBLE quote directly
before it) to the FIRST closing brace (matching across newlines), plus an
optional double quote directly after — collapsing it to nothing; the
claim's concrete example holds: surrounding text is preserved and the
result is trimmed. -/
theorem C6_theorem :
    (∀ a b c : List Char, '\x7b' ∉ a → a.getLast? ≠ some '"' → '\x7d' ∉ b →
      c.head? ≠ some '"' →
      braceStep .outside (a ++ '\x7b' :: b ++ '\x7d' :: c) = a ++ braceStep .outside c) ∧
    clean_content "Result \x7b\"status\":\"ok\"\x7d done" = "Result  done" ∧
    clean_content "a\"\x7bx\x7d\"b" = "ab" ∧
    clean_content "a'\x7bx\x7d'b" = "a''b" :=
  ⟨braceStep_removes_lazy_span, by decide, by decide, by decide⟩

theorem C6_witness :
    ('\x7b' ∉ "Result ".data ∧ "Result ".data.getLast? ≠ some '"' ∧
      '\x7d' ∉ "\"status\":\"ok\"".data ∧ (" done".data).head? ≠ some '"') ∧
    braceStep .outside
        ("Result ".data ++ '\x7b' :: "\"status\":\"ok\"".data ++ '\x7d' :: " done".data) =
      "Result ".data ++ braceStep .outside " done".data :=
  ⟨by decide, C6_theorem.1 "Result ".data "\"status\":\"ok\"".data " done".data
    (by decide) (by decide) (by decide) (by decide)⟩

/-- C7: under error-free processing, the output document is the
concatenation of the rendered entries in order, and the number of rendered
entries is N minus the messages dropped for empty cleaned content minus
the messages skipped for an invalid version index. -/
theorem C7_theorem (fmt : String) (its : Bool) (msgs : List Json)
    (h : ∀ m ∈ msgs, (renderMessage fmt its m).isOk = true) :
    format_dialogue msgs fmt its =
      .ok (concatParts (msgs.filterMap fun m =>
        (renderMessage fmt its m).toOption.getD none)) ∧
    msgs.countP (renderedEntry fmt its) =
      msgs.length - msgs.countP versionSkipped - msgs.countP emptyContentSkipped := by
  refine ⟨format_dialogue_document fmt its msgs h, ?_⟩
  have := count_partition fmt its msgs h
  omega

/-- C8: the formatter's output is a function of the message list and the
two flags alone — two runs with different wall clocks or host timezone
offsets produce byte-identical documents, the message's own `timestamp`
field being the only time source. -/
theorem C8_theorem (wallClock1 localOff1 wallClock2 localOff2 : Int)
    (messages : List Json) (output_format : String) (include_timestamps : Bool) :
    format_dialogue_env wallClock1 localOff1 messages output_format include_timestamps =
      format_dialogue_env wallClock2 localOff2 messages output_format include_timestamps ∧
    format_dialogue_env wallClock1 localOff1 messages output_format include_timestamps =
      format_dialogue messages output_format include_timestamps :=
  ⟨rfl, rfl⟩

/-- C9: a negative `currentlySelected = -k` with `1 ≤ k ≤ len(versions)`
passes the `version_index < len(versions)` guard, so the message is not
skipped: role and content resolve from the version at position
`len(versions) - k`, i.e. Python's from-the-end indexing. -/
theorem C9_theorem (fields : List (String × Json)) (l : List Json) (k : Nat)
    (hv : lookupField fields "versions" = some (.arr l))
    (hc : lookupField fields "currentlySelected" = some (.num (-(k : Int))))
    (hk1 : 1 ≤ k) (hk2 : k ≤ l.length) :
    resolveRoleContent (.obj fields) =
      (versionRoleContent (l.getD (l.length - k) .null)).map some := by
  simp only [resolveRoleContent, hv, hc, Option.getD, jsonAsInt, jsonLen]
  have hg : -(k : Int) < (l.length : Int) := by omega
  rw [if_pos hg]
  have hneg : -(k : Int) < 0 := by omega
  have hd : (0 ≤ if -(k : Int) < 0 then (l.length : Int) + -(k : Int) else -(k : Int)) ∧
      (if -(k : Int) < 0 then (l.length : Int) + -(k : Int) else -(k : Int)).toNat < l.length := by
    rw [if_pos hneg]
    constructor <;> omega
  rw [dif_pos hd]
  have htn : (if -(k : Int) < 0 then (l.length : Int) + -(k : Int) else -(k : Int)).toNat =
      l.length - k := by
    rw [if_pos hneg]
    omega
  congr 1
  rw [List.getD_eq_getElem?_getD,
    List.getElem?_eq_getElem (show l.length - k < l.length by omega)]
  simp only [Option.getD_some, List.get_eq_getElem]
  simp only [htn]

theorem C9_witness :
    lookupField [("versions", Json.arr [Json.obj [("role", Json.str "a"), ("text", Json.str "A")],
        Json.obj [("role", Json.str "b"), ("text", Json.str "B")]]),
      ("currentlySelected", Json.num (-1))] "currentlySelected" = some (Json.num (-1)) ∧
    (1 : Nat) ≤ 1 ∧ (1 : Nat) ≤ 2 ∧
    resolveRoleContent (.obj [("versions", Json.arr
        [Json.obj [("role", Json.str "a"), ("text", Json.str "A")],
         Json.obj [("role", Json.str "b"), ("text", Json.str "B")]]),
      ("currentlySelected", Json.num (-1))]) =
      (versionRoleContent (Json.obj [("role", Json.str "b"), ("text", Json.str "B")])).map some := by
  refine ⟨rfl, by omega, by omega, ?_⟩
  have h := C9_theorem
    [("versions", Json.arr [Json.obj [("role", Json.str "a"), ("text", Json.str "A")],
        Json.obj [("role", Json.str "b"), ("text", Json.str "B")]]),
      ("currentlySelected", Json.num (-1))]
    [Json.obj [("role", Json.str "a"), ("text", Json.str "A")],
     Json.obj [("role", Json.str "b"), ("text", Json.str "B")]]
    1 rfl rfl (by decide) (by decide)
  simpa using h

/-- The role/content of a version is unaffected by a `timestamp` field of
its own: `role` lookup and the extraction priority keys all skip it. -/
theorem versionRoleContent_skip_timestamp (t : Json) (vf : List (String × Json)) :
    versionRoleContent (.obj (("timestamp", t) :: vf)) = versionRoleContent (.obj vf) := by
  simp only [versionRoleContent]
  rw [show lookupField (("timestamp", t) :: vf) "role" = lookupField vf "role" by
    simp [lookupField]]
  rw [extract_content_skip_key "timestamp" t vf (by decide) (by decide) (by decide)
    (by decide) (by decide)]

/-- C10: the rendered timestamp comes from the outer message's own
`timestamp` field only — (a) a `timestamp` inside the selected version is
ignored (removing it changes nothing), and (b) a message whose outer
mapping lacks `timestamp` renders as if timestamps were disabled. -/
theorem C10_theorem :
    (∀ (fmt : String) (its : Bool) (orest vf : List (String × Json)) (t : Json),
      renderMessage fmt its
          (.obj (("versions", Json.arr [Json.obj (("timestamp", t) :: vf)]) :: orest)) =
        renderMessage fmt its
          (.obj (("versions", Json.arr [Json.obj vf]) :: orest))) ∧
    (∀ (fmt : String) (fields : List (String × Json)),
      lookupField fields "timestamp" = none →
      renderMessage fmt true (.obj fields) = renderMessage fmt false (.obj fields)) := by
  constructor
  · intro fmt its orest vf t
    apply renderMessage_congr
    · simp only [resolveRoleContent]
      rw [show lookupField (("versions", Json.arr [Json.obj (("timestamp", t) :: vf)]) :: orest)
            "versions" = some (Json.arr [Json.obj (("timestamp", t) :: vf)]) by
          simp [lookupField]]
      rw [show lookupField (("versions", Json.arr [Json.obj vf]) :: orest)
            "versions" = some (Json.arr [Json.obj vf]) by simp [lookupField]]
      rw [show lookupField (("versions", Json.arr [Json.obj (("timestamp", t) :: vf)]) :: orest)
            "currentlySelected" = lookupField orest "currentlySelected" by simp [lookupField]]
      rw [show lookupField (("versions", Json.arr [Json.obj vf]) :: orest)
            "currentlySelected" = lookupField orest "currentlySelected" by simp [lookupField]]
      cases jsonAsInt ((lookupField orest "currentlySelected").getD (.num 0)) with
      | none => rfl
      | some i =>
        simp only [jsonLen, List.length_singleton, Nat.cast_one]
        by_cases hg : i < (1 : Int)
        · rw [if_pos hg, if_pos hg]
          by_cases hd : (0 ≤ if i < 0 then (1 : Int) + i else i) ∧
              (if i < 0 then (1 : Int) + i else i).toNat < 1
          · rw [dif_pos hd, dif_pos hd]
            simp only [List.get_eq_getElem, List.getElem_singleton]
            rw [versionRoleContent_skip_timestamp]
          · rw [dif_neg hd, dif_neg hd]
        · rw [if_neg hg, if_neg hg]
    · simp [timestampString, lookupField]
  · intro fmt fields hts
    apply renderMessage_congr fmt true false rfl
    simp [timestampString, hts]

theorem C10_witness :
    lookupField [("role", Json.str "u"), ("text", Json.str "hi")] "timestamp" = none ∧
    renderMessage "text" true (.obj [("role", Json.str "u"), ("text", Json.str "hi")]) =
      renderMessage "text" false (.obj [("role", Json.str "u"), ("text", Json.str "hi")]) ∧
    renderMessage "text" true (.obj [("versions", Json.arr [Json.obj [("timestamp", Json.num 5),
        ("role", Json.str "a"), ("text", Json.str "A")]])]) =
      renderMessage "text" true (.obj [("versions", Json.arr [Json.obj [("role", Json.str "a"),
        ("text", Json.str "A")]])]) :=
  ⟨rfl, C10_theorem.2 "text" [("role", Json.str "u"), ("text", Json.str "hi")] rfl,
    C10_theorem.1 "text" true [] [("role", Json.str "a"), ("text", Json.str "A")] (Json.num 5)⟩

theorem C7_witness :
    (∀ m ∈ [Json.obj [("role", Json.str "u"), ("text", Json.str "hi")],
        Json.obj [("role", Json.str "v"), ("text", Json.str "  ")],
        Json.obj [("versions", Json.arr [])]],
      (renderMessage "text" false m).isOk = true) ∧
    (format_dialogue
        [Json.obj [("role", Json.str "u"), ("text", Json.str "hi")],
         Json.obj [("role", Json.str "v"), ("text", Json.str "  ")],
         Json.obj [("versions", Json.arr [])]] "text" false =
      .ok (concatParts
        ([Json.obj [("role", Json.str "u"), ("text", Json.str "hi")],
          Json.obj [("role", Json.str "v"), ("text", Json.str "  ")],
          Json.obj [("versions", Json.arr [])]].filterMap fun m =>
            (renderMessage "text" false m).toOption.getD none)) ∧
     [Json.obj [("role", Json.str "u"), ("text", Json.str "hi")],
      Json.obj [("role", Json.str "v"), ("text", Json.str "  ")],
      Json.obj [("versions", Json.arr [])]].countP (renderedEntry "text" false) =
       [Json.obj [("role", Json.str "u"), ("text", Json.str "hi")],
        Json.obj [("role", Json.str "v"), ("text", Json.str "  ")],
        Json.obj [("versions", Json.arr [])]].length -
         [Json.obj [("role", Json.str "u"), ("text", Json.str "hi")],
          Json.obj [("role", Json.str "v"), ("text", Json.str "  ")],
          Json.obj [("versions", Json.arr [])]].countP versionSkipped -
         [Json.obj [("role", Json.str "u"), ("text", Json.str "hi")],
          Json.obj [("role", Json.str "v"), ("text", Json.str "  ")],
          Json.obj [("versions", Json.arr [])]].countP emptyContentSkipped) := by
  have hex1 : extract_content (.obj [("role", Json.str "u"), ("text", Json.str "hi")]) =
      .ok "hi" := by
    rw [extract_content_text (by rfl), extract_content_str]
  have hex2 : extract_content (.obj [("role", Json.str "v"), ("text", Json.str "  ")]) =
      .ok "  " := by
    rw [extract_content_text (by rfl), extract_content_str]
  have r1 : renderMessage "text" false (.obj [("role", Json.str "u"), ("text", Json.str "hi")]) =
      .ok (some "U:\nhi\n\n") := by
    rw [renderMessage_plain "text" false [("role", Json.str "u"), ("text", Json.str "hi")]
      "u" "hi" rfl rfl hex1]
    decide
  have r2 : renderMessage "text" false (.obj [("role", Json.str "v"), ("text", Json.str "  ")]) =
      .ok none := by
    rw [renderMessage_plain "text" false [("role", Json.str "v"), ("text", Json.str "  ")]
      "v" "  " rfl rfl hex2]
    decide
  have hvs3 : versionSkipped (.obj [("versions", Json.arr [])]) = true := by decide
  have r3 : renderMessage "text" false (.obj [("versions", Json.arr [])]) = .ok none :=
    versionSkipped_renderMessage "text" false hvs3
  have h : ∀ m ∈ [Json.obj [("role", Json.str "u"), ("text", Json.str "hi")],
      Json.obj [("role", Json.str "v"), ("text", Json.str "  ")],
      Json.obj [("versions", Json.arr [])]],
      (renderMessage "text" false m).isOk = true := by
    intro m hm
    simp at hm
    rcases hm with rfl | rfl | rfl
    · rw [r1]; rfl
    · rw [r2]; rfl
    · rw [r3]; rfl
  exact ⟨h, C7_theorem "text" false _ h⟩
